import Mathlib

/-!
Verification of the mixmaster streaming-composition library.

The repository contains two generations of the same core file:
* `src/lib/index.js` (namespace `Lib` below): `ArrayReader`,
  `FlatStreamReader` with a single `_subStreamReader` slot, `toReader`,
  `readToArray`.
* `src/unnamed/part_000` (namespace `V2` below): the same file with a
  forward-cursor `ArrayReader` and a `_subStreamReaderStack` stack of
  nested frames.
`src/index.js` additionally holds two variants of `transformStream`,
`matchTransform` and `evalTransform`.

All promise-based code in the source is deterministic single-consumer
pull code over already-determined sources, so it is embedded as pure
state-passing functions; a settled promise is an `Except` value, and a
rejected read surfaces as `Except.error`.  JS `undefined`/`null` are
both modelled by `Chunk.nul`.
-/

/-- The context object handed to the evaluator and forwarded verbatim to
every function chunk.  The source treats it as fully opaque, so it is a
simple wrapper type here. -/
structure Ctx where
  tag : String

/-- Universe of chunk values flowing through the evaluator, mirroring the
union documented in the source: strings, numbers, null/undefined,
arrays, functions of the context, promise-like values (modelled as
already settled: resolved or rejected), and ReadableStreams (modelled by
the list of chunks they will deliver in order). -/
inductive Chunk where
  | str    : String → Chunk
  | num    : Int → Chunk
  | nul    : Chunk
  | arr    : List Chunk → Chunk
  | fn     : (Ctx → Chunk) → Chunk
  | prom   : Except String Chunk → Chunk
  | stream : List Chunk → Chunk

/-- JS truthiness of a chunk value: `""`, `0` and `null`/`undefined` are
falsy, every object (arrays, functions, promises, streams) is truthy. -/
def Chunk.truthy : Chunk → Bool
  | .str s => s != ""
  | .num n => n != 0
  | .nul => false
  | _ => true

/-- Result object of one `read()` call: `{ value, done }`.  A done result
carries `Chunk.nul` as its value (JS `undefined`). -/
structure RRes where
  done : Bool
  value : Chunk

namespace Lib

/-- State of `ArrayReader` from `src/lib/index.js`: the wrapped array and
the `_offset` cursor.  The constructor sets `_offset = arr.length - 1`
and `read()` returns `arr[offset]` while post-decrementing, so this
reader walks the array from its last element towards its first. -/
structure ArrayReader where
  arr : List Chunk
  offset : Int

/-- Constructor `new ArrayReader(arr)`. -/
def ArrayReader.ofArray (a : List Chunk) : ArrayReader :=
  { arr := a, offset := (a.length : Int) - 1 }

/-- One `read()` call on the lib `ArrayReader`: if `_offset >= 0` it
yields `arr[_offset--]` as a non-done result, otherwise a done result
with undefined value; returns the result together with the updated
reader state. -/
def ArrayReader.readS (s : ArrayReader) : RRes × ArrayReader :=
  if 0 ≤ s.offset then
    (⟨false, (s.arr.get? s.offset.toNat).getD Chunk.nul⟩,
      { s with offset := s.offset - 1 })
  else
    (⟨true, Chunk.nul⟩, s)

/-- `cancel()` on the lib `ArrayReader` sets `_offset = -1`. -/
def ArrayReader.cancelS (s : ArrayReader) : ArrayReader :=
  { s with offset := -1 }

/-- The `pump` loop of `readToArray` from `src/lib/index.js`, specialised
to an `ArrayReader` source (which is what `toReader` produces for an
array input): repeatedly call `read()`, pushing each non-done value onto
the accumulator, until a done result is observed.  The fuel bounds the
number of reads; `readToArray` below supplies one more than the number
of elements, which the reversal theorem shows is never exhausted. -/
def ArrayReader.drainGo (fuel : Nat) (s : ArrayReader) (acc : List Chunk) :
    Except String (List Chunk) :=
  match fuel with
  | 0 => .error "fuel exhausted"
  | f + 1 =>
    let p := s.readS
    if p.1.done then .ok acc
    else ArrayReader.drainGo f p.2 (acc ++ [p.1.value])

/-- `readToArray(toReader(seq))` from `src/lib/index.js` for an array
input `seq`: `toReader` wraps `seq` in an `ArrayReader`, and the pump
loop drains it into an array (the pump performs exactly one read per
element plus the final done read). -/
def readToArray (seq : List Chunk) : Except String (List Chunk) :=
  ArrayReader.drainGo (seq.length + 1) (ArrayReader.ofArray seq) []

/-- What `_subStreamReader` can hold in the lib `FlatStreamReader`: an
`ArrayReader` created from an array chunk by `new ArrayReader(chunk)`,
or the reader acquired from a `ReadableStream` chunk by
`chunk.getReader()` (modelled by the list of chunks the stream will
still deliver, in order). -/
inductive SubR where
  | arrR  : ArrayReader → SubR
  | strmR : List Chunk → SubR

/-- One `read()` on the active sub-reader. -/
def SubR.readS : SubR → RRes × SubR
  | .arrR s => ((s.readS).1, .arrR (s.readS).2)
  | .strmR [] => (⟨true, Chunk.nul⟩, .strmR [])
  | .strmR (c :: rest) => (⟨false, c⟩, .strmR rest)

/-- State of the lib `FlatStreamReader`: the base reader obtained from
`toReader(input)` (an `ArrayReader`, for an array input), the context
object, and the single `_subStreamReader` slot (note: a single slot, not
a stack — a newly discovered nested source overwrites it). -/
structure FlatStreamReader where
  reader : ArrayReader
  ctx : Ctx
  sub : Option SubR

mutual

/-- `FlatStreamReader.read()` from `src/lib/index.js`: if a sub-reader is
active, read from it — on done, clear the slot and retry; otherwise
route the result through `_handleReadRes`.  With no sub-reader, read
from the base reader and handle the result.  The `fuel` argument bounds
the recursion depth (the source recursion is not structurally bounded
because function chunks may produce arbitrary chunks); every theorem
below supplies enough fuel that the bound is never reached. -/
def flatRead (fuel : Nat) (st : FlatStreamReader) : Except String (RRes × FlatStreamReader) :=
  match fuel with
  | 0 => .error "fuel exhausted"
  | f + 1 =>
    match st.sub with
    | some sr =>
        let p := sr.readS
        if p.1.done then flatRead f { st with sub := none }
        else handleReadRes f { st with sub := some p.2 } p.1
    | none =>
        let p := st.reader.readS
        handleReadRes f { st with reader := p.2 } p.1

/-- `FlatStreamReader._handleReadRes(res)` from `src/lib/index.js`: done
results pass through; string chunks are emitted on the fast path;
function chunks are invoked once with the context; then, if the
(possibly replaced) chunk is truthy, an array chunk installs a fresh
`ArrayReader` sub-reader and retries `read()`, a promise-like chunk is
awaited and its resolved value re-enters `_handleReadRes` from the top
(a rejection propagates as a failed read), and a stream chunk installs
its reader and retries `read()`; anything else is emitted unchanged. -/
def handleReadRes (fuel : Nat) (st : FlatStreamReader) (res : RRes) :
    Except String (RRes × FlatStreamReader) :=
  match fuel with
  | 0 => .error "fuel exhausted"
  | f + 1 =>
    if res.done then .ok (res, st)
    else
      match res.value with
      | .str s => .ok (⟨false, .str s⟩, st)
      | c0 =>
        let chunk : Chunk := match c0 with | .fn g => g st.ctx | c => c
        if chunk.truthy then
          match chunk with
          | .arr a => flatRead f { st with sub := some (.arrR (ArrayReader.ofArray a)) }
          | .prom (.ok v) => handleReadRes f st ⟨false, v⟩
          | .prom (.error e) => .error e
          | .stream l => flatRead f { st with sub := some (.strmR l) }
          | c => .ok (⟨false, c⟩, st)
        else .ok (⟨false, chunk⟩, st)

end

/-- The `pump` loop of `readToArray` applied to a lib `FlatStreamReader`
(which `toReader` returns unchanged, since it exposes `read`). -/
def flatDrainGo (fuel : Nat) (st : FlatStreamReader) (acc : List Chunk) :
    Except String (List Chunk) :=
  match fuel with
  | 0 => .error "fuel exhausted"
  | f + 1 =>
    match flatRead (f + 1) st with
    | .error e => .error e
    | .ok (res, st') =>
      if res.done then .ok acc
      else flatDrainGo f st' (acc ++ [res.value])

/-- `readToArray(new FlatStreamReader(input, ctx))` for an array input. -/
def flatReadToArray (fuel : Nat) (ctx : Ctx) (input : List Chunk) :
    Except String (List Chunk) :=
  flatDrainGo fuel ⟨ArrayReader.ofArray input, ctx, none⟩ []

end Lib

namespace V2

/-- State of `ArrayReader` from `src/unnamed/part_000`: a forward cursor
`_index` starting at 0.  Its `cancel()` writes `this._offset = -1` — a
field that `read()` never consults (the constructor does not initialise
it; it is modelled as starting at 0). -/
structure ArrayReader where
  arr : List Chunk
  index : Nat
  offset : Int

/-- Constructor `new ArrayReader(arr)` (part_000): `_index = 0`. -/
def ArrayReader.ofArray (a : List Chunk) : ArrayReader :=
  { arr := a, index := 0, offset := 0 }

/-- One `read()` on the part_000 `ArrayReader`: while `_index` is within
bounds it yields `arr[_index++]`, afterwards done results. -/
def ArrayReader.readS (s : ArrayReader) : RRes × ArrayReader :=
  if s.index < s.arr.length then
    (⟨false, (s.arr.get? s.index).getD Chunk.nul⟩, { s with index := s.index + 1 })
  else
    (⟨true, Chunk.nul⟩, s)

/-- `cancel()` on the part_000 `ArrayReader`: sets `this._offset = -1`
(and nothing else — `read()` keeps working, since it checks `_index`). -/
def ArrayReader.cancelS (s : ArrayReader) : ArrayReader :=
  { s with offset := -1 }

/-- The base reader `toReader(input)` of the part_000
`FlatStreamReader`: for an array input, an `ArrayReader`; a
`read`-capable input object is returned unchanged by `toReader`, so it
can be any caller-supplied Reader — modelled by the list of chunks it
will deliver, the reason it was cancelled with (if any), and the value
its `cancel` returns. -/
inductive Base where
  | arrB : ArrayReader → Base
  | rdrB : List Chunk → Option String → String → Base

/-- One `read()` on the base reader. -/
def Base.readS : Base → RRes × Base
  | .arrB s => ((s.readS).1, .arrB (s.readS).2)
  | .rdrB [] log ret => (⟨true, Chunk.nul⟩, .rdrB [] log ret)
  | .rdrB (c :: rest) log ret => (⟨false, c⟩, .rdrB rest log ret)

/-- `cancel(reason)` on the base reader, returning the new state together
with the value the cancellation returns (`ArrayReader.cancel` returns
JS `undefined`; a caller-supplied Reader returns its own outcome). -/
def Base.cancelS : Base → String → Base × String
  | .arrB s, _ => (.arrB s.cancelS, "undefined")
  | .rdrB rem _ ret, reason => (.rdrB rem (some reason) ret, ret)

/-- Whether cancellation has been invoked on the base reader: for an
`ArrayReader` the `_offset = -1` write is the trace it leaves; for a
caller-supplied Reader, the recorded reason. -/
def Base.isCancelled : Base → Bool
  | .arrB s => s.offset == -1
  | .rdrB _ log _ => log.isSome

/-- A frame of `_subStreamReaderStack` in part_000: an `ArrayReader`
built from an array chunk, or the reader acquired from a stream chunk
(remaining chunks plus a flag recording that its `cancel` was invoked). -/
inductive Frame where
  | arrR : ArrayReader → Frame
  | strmR : List Chunk → Bool → Frame

/-- One `read()` on a stacked frame. -/
def Frame.readS : Frame → RRes × Frame
  | .arrR s => ((s.readS).1, .arrR (s.readS).2)
  | .strmR [] c => (⟨true, Chunk.nul⟩, .strmR [] c)
  | .strmR (x :: rest) c => (⟨false, x⟩, .strmR rest c)

/-- `cancel(reason)` on a stacked frame: an `ArrayReader` frame performs
its `_offset = -1` write (ignoring the reason); a stream frame's reader
records the cancellation. -/
def Frame.cancelS (reason : String) : Frame → Frame
  | .arrR s => .arrR s.cancelS
  | .strmR rem _ => .strmR rem true

/-- Whether cancellation has been invoked on a frame. -/
def Frame.isCancelled : Frame → Bool
  | .arrR s => s.offset == -1
  | .strmR _ c => c

/-- State of the part_000 `FlatStreamReader`: base reader, context, and
`_subStreamReaderStack`.  The JS array is pushed, indexed and popped at
its end; the list here keeps the most recently pushed (innermost) frame
at its head. -/
structure FlatStreamReader where
  reader : Base
  ctx : Ctx
  stack : List Frame

mutual

/-- `FlatStreamReader.read()` from `src/unnamed/part_000`: with a
non-empty stack, read the top frame — a done result pops the frame and
retries; otherwise the result goes through `_handleReadRes`.  With an
empty stack, read the base reader and handle the result. -/
def flatRead (fuel : Nat) (st : FlatStreamReader) : Except String (RRes × FlatStreamReader) :=
  match fuel with
  | 0 => .error "fuel exhausted"
  | f + 1 =>
    match st.stack with
    | fr :: rest =>
        let p := fr.readS
        if p.1.done then flatRead f { st with stack := rest }
        else handleReadRes f { st with stack := p.2 :: rest } p.1
    | [] =>
        let p := st.reader.readS
        handleReadRes f { st with reader := p.2 } p.1

/-- `FlatStreamReader._handleReadRes(res)` from `src/unnamed/part_000`:
identical to the lib version except that nested sources are pushed onto
`_subStreamReaderStack` instead of overwriting a single slot.  (The
part_000 source also has a branch splicing chunks that expose `read`
directly; no chunk in the value universe used here carries that
capability, so that branch is unreachable and omitted.) -/
def handleReadRes (fuel : Nat) (st : FlatStreamReader) (res : RRes) :
    Except String (RRes × FlatStreamReader) :=
  match fuel with
  | 0 => .error "fuel exhausted"
  | f + 1 =>
    if res.done then .ok (res, st)
    else
      match res.value with
      | .str s => .ok (⟨false, .str s⟩, st)
      | c0 =>
        let chunk : Chunk := match c0 with | .fn g => g st.ctx | c => c
        if chunk.truthy then
          match chunk with
          | .arr a =>
              flatRead f { st with stack := .arrR (ArrayReader.ofArray a) :: st.stack }
          | .prom (.ok v) => handleReadRes f st ⟨false, v⟩
          | .prom (.error e) => .error e
          | .stream l => flatRead f { st with stack := .strmR l false :: st.stack }
          | c => .ok (⟨false, c⟩, st)
        else .ok (⟨false, chunk⟩, st)

end

/-- `FlatStreamReader.cancel(reason)` from `src/unnamed/part_000`: maps
`reader.cancel(reason)` over every stacked frame (the map's results —
the frames' own cancellation outcomes — are discarded, so one frame's
failure cannot prevent the rest from being attempted), then cancels the
base reader and returns the base reader's cancellation outcome. -/
def flatCancel (st : FlatStreamReader) (reason : String) : FlatStreamReader × String :=
  let stack2 := st.stack.map (Frame.cancelS reason)
  let p := st.reader.cancelS reason
  ({ st with stack := stack2, reader := p.1 }, p.2)

/-- The `pump` loop of part_000's `readToArray` applied to a part_000
`FlatStreamReader`. -/
def flatDrainGo (fuel : Nat) (st : FlatStreamReader) (acc : List Chunk) :
    Except String (List Chunk) :=
  match fuel with
  | 0 => .error "fuel exhausted"
  | f + 1 =>
    match flatRead (f + 1) st with
    | .error e => .error e
    | .ok (res, st') =>
      if res.done then .ok acc
      else flatDrainGo f st' (acc ++ [res.value])

/-- `readToArray(new FlatStreamReader(input, ctx))` (part_000 variant)
for an array input. -/
def flatReadToArray (fuel : Nat) (ctx : Ctx) (input : List Chunk) :
    Except String (List Chunk) :=
  flatDrainGo fuel ⟨.arrB (ArrayReader.ofArray input), ctx, []⟩ []

end V2

namespace Pipe

/-- A pipeline-stage Reader for `transformStream`, modelled by the list
of chunks it will deliver in order (all composition-time behaviour of
`transformStream` is independent of what the readers later deliver). -/
abbrev PipeReader := List Chunk

/-- The `ReadableStream` returned by `transformStream`: it wraps the
final Reader of the pipeline via `readerToUnderlyingSource`, performing
no read until the stream is pulled. -/
structure OutStream where
  source : PipeReader

/-- The `input` argument of `transformStream`: an array or a
ReadableStream (the two input kinds its doc comment admits). -/
inductive TInput where
  | arrI : List Chunk → TInput
  | strmI : List Chunk → TInput

/-- The first two lines of `transformStream`: an array input is wrapped
by `arrayToStream` (resp. `makeArrayStream`), and `input.getReader()`
acquires the reader — this happens before the `transforms` check. -/
def TInput.getReaderM : TInput → PipeReader
  | .arrI a => a
  | .strmI l => l

/-- The `transforms` argument: an array of Reader transforms, or any
non-array JS value (carrying only a description tag, since the source
never inspects it beyond `Array.isArray`). -/
inductive TransformsArg where
  | arrT : List (PipeReader → PipeReader) → TransformsArg
  | nonArrayT : String → TransformsArg

/-- `transformStream(input, transforms)` from `src/index.js` (the logic
is identical in both variants of the file): adapt an array input, take
the input's reader, then throw synchronously — modelled as
`Except.error`, as opposed to an error inside the returned stream's
later reads — when `transforms` is not an array; otherwise fold each
transform over the reader left to right and wrap the final reader into
a `ReadableStream` without performing any read. -/
def transformStream (input : TInput) (transforms : TransformsArg) :
    Except String OutStream :=
  let reader := input.getReaderM
  match transforms with
  | .nonArrayT _ => .error "Transforms array expected."
  | .arrT ts => .ok ⟨ts.foldl (fun r t => t r) reader⟩

end Pipe

namespace MT

/-- Result of one `matchFn` invocation in the second `matchTransform`
variant of `src/index.js`: already-matched output values and the
unconsumed remainder. -/
structure MatchRes where
  pending : List String
  remainder : String

/-- State of the Reader built by `matchTransform(matchFn)` (second
variant): the current `curMatch` fields plus the remaining chunks of
the upstream Reader (modelled as a list, which is what the adapted
array input delivers). -/
structure MTState where
  pending : List String
  remainder : String
  input : List String

/-- `read()` of the second `matchTransform` variant: if `curMatch.matches`
is non-empty, shift and return its head; else read the input — when the
input is done, a non-empty remainder is flushed (pushed as a final match
and `read()` retried), an empty one yields done; when the input yields a
chunk, `matchFn` is invoked on `curMatch.remainder + chunk`, `curMatch`
is replaced by its result, and `read()` recurses. -/
def mtRead (mf : String → MatchRes) (st : MTState) : Option String × MTState :=
  match st.pending with
  | v :: rest => (some v, { st with pending := rest })
  | [] =>
    match hin : st.input with
    | [] =>
      if st.remainder = "" then (none, st)
      else mtRead mf { pending := [st.remainder], remainder := "", input := [] }
    | v :: rest =>
      let m := mf (st.remainder ++ v)
      mtRead mf { pending := m.pending, remainder := m.remainder, input := rest }
termination_by 2 * st.input.length + (if st.remainder = "" then 0 else 1)
decreasing_by
  all_goals simp only [hin, List.length_cons, List.length_nil]
  all_goals split_ifs <;> omega

/-- Pump loop draining a `matchTransform` Reader; the fuel bounds the
number of emitted values. -/
def mtDrainGo (mf : String → MatchRes) (fuel : Nat) (st : MTState) (acc : List String) :
    Option (List String) :=
  match fuel with
  | 0 => none
  | f + 1 =>
    match mtRead mf st with
    | (none, _) => some acc
    | (some v, st') => mtDrainGo mf f st' (acc ++ [v])

/-- A matcher that completes only on seeing the full text `"abc"`:
anything else is kept entirely as remainder. -/
def abcMatchFn : String → MatchRes :=
  fun s => if s = "abc" then ⟨["abc"], ""⟩ else ⟨[], s⟩

end MT

namespace ET2

/-- State of the Reader built by the second `evalTransform` variant of
`src/index.js`: the context, the remaining upstream chunks, and
`activeStreamReader` (the remaining chunks of a spliced sub-stream). -/
structure EvalT2State where
  ctx : Ctx
  input : List Chunk
  active : Option (List Chunk)

/-- `read()` of the second `evalTransform` variant: values of an active
sub-stream are returned as-is ("do not double-eval sub-streams"); when
it is done the slot is cleared and `read()` retried.  Otherwise one
upstream chunk is taken: a function chunk is invoked once with the
context; a `ReadableStream` result is spliced in; for every other chunk
the source probes `chunk.then` with no falsy guard, so a `null` or
`undefined` chunk throws a `TypeError`; a promise-like chunk has its
settled value emitted without re-classification (or its rejection
propagated); everything else is emitted unchanged. -/
def evalT2Read (fuel : Nat) (st : EvalT2State) : Except String (RRes × EvalT2State) :=
  match fuel with
  | 0 => .error "fuel exhausted"
  | f + 1 =>
    match st.active with
    | some [] => evalT2Read f { st with active := none }
    | some (c :: rest) => .ok (⟨false, c⟩, { st with active := some rest })
    | none =>
      match st.input with
      | [] => .ok (⟨true, Chunk.nul⟩, st)
      | c0 :: rest =>
        let chunk : Chunk := match c0 with | .fn g => g st.ctx | c => c
        match chunk with
        | .stream l => evalT2Read f { st with input := rest, active := some l }
        | .nul => .error "TypeError: Cannot read property then of null"
        | .prom (.ok v) => .ok (⟨false, v⟩, { st with input := rest })
        | .prom (.error e) => .error e
        | c => .ok (⟨false, c⟩, { st with input := rest })

/-- Pump loop draining the second `evalTransform` variant's Reader. -/
def evalT2DrainGo (fuel : Nat) (st : EvalT2State) (acc : List Chunk) :
    Except String (List Chunk) :=
  match fuel with
  | 0 => .error "fuel exhausted"
  | f + 1 =>
    match evalT2Read (f + 1) st with
    | .error e => .error e
    | .ok (res, st') =>
      if res.done then .ok acc
      else evalT2DrainGo f st' (acc ++ [res.value])

/-- Draining the second `evalTransform` variant over an array input. -/
def evalT2Drain (fuel : Nat) (ctx : Ctx) (input : List Chunk) :
    Except String (List Chunk) :=
  evalT2DrainGo fuel ⟨ctx, input, none⟩ []

end ET2

mutual

/-- Modelled from the spec (section 4.4, for comparison with the code):
the fully recursive re-classification of one chunk, in the spec's
classification order — plain text emitted; a callable invoked with the
context and its result re-classified; a falsy value emitted unchanged;
an ordered sequence spliced (each element re-classified in order); a
promise's resolved value re-classified from the top (a rejection is a
failure); a stream spliced; anything else emitted unchanged.  Returns
the flat list of values the chunk contributes. -/
def specReclassify (fuel : Nat) (ctx : Ctx) (c : Chunk) : Except String (List Chunk) :=
  match fuel with
  | 0 => .error "fuel exhausted"
  | f + 1 =>
    match c with
    | .str s => .ok [.str s]
    | .fn g => specReclassify f ctx (g ctx)
    | c =>
      if c.truthy then
        match c with
        | .arr a => specReclassifyList f ctx a
        | .prom (.ok v) => specReclassify f ctx v
        | .prom (.error e) => .error e
        | .stream l => specReclassifyList f ctx l
        | c => .ok [c]
      else .ok [c]

/-- Modelled from the spec: splicing of a nested ordered sequence —
every element fully re-classified, in order, results concatenated. -/
def specReclassifyList (fuel : Nat) (ctx : Ctx) (cs : List Chunk) :
    Except String (List Chunk) :=
  match fuel with
  | 0 => .error "fuel exhausted"
  | f + 1 =>
    match cs with
    | [] => .ok []
    | c :: rest =>
      match specReclassify f ctx c with
      | .error e => .error e
      | .ok vs =>
        match specReclassifyList f ctx rest with
        | .error e => .error e
        | .ok vs' => .ok (vs ++ vs')

end

/-- A fixed opaque context object used in concrete instances. -/
def ctx0 : Ctx := ⟨"ctx"⟩

/-- A function chunk body returning the plain string `"X"`. -/
def G0 : Ctx → Chunk := fun _ => Chunk.str "X"

/-- A function chunk body returning another function chunk — the input
`f = () => (() => "X")` of the re-classification analysis. -/
def F0 : Ctx → Chunk := fun _ => Chunk.fn G0

/-- Boolean test of whether a chunk is the plain string `s`. -/
def Chunk.isStrEq (c : Chunk) (s : String) : Bool :=
  match c with
  | .str t => t == s
  | _ => false

lemma Lib.drainGo_eq_reverse_take :
    ∀ (n : Nat) (a : List Chunk) (k : Int) (acc : List Chunk) (fuel : Nat),
      (k + 1).toNat = n → n < fuel → k < (a.length : Int) →
      Lib.ArrayReader.drainGo fuel ⟨a, k⟩ acc =
        .ok (acc ++ (a.take (k + 1).toNat).reverse) := by
  intro n
  induction n with
  | zero =>
      intro a k acc fuel hn hf hk
      have hneg : ¬ (0 ≤ k) := by omega
      cases fuel with
      | zero => omega
      | succ f =>
          simp [Lib.ArrayReader.drainGo, Lib.ArrayReader.readS, hneg, hn]
  | succ m ih =>
      intro a k acc fuel hn hf hk
      have hpos : 0 ≤ k := by omega
      have hm : k.toNat = m := by omega
      have hlt : m < a.length := by omega
      have hget : a.get? m = some (a.get ⟨m, hlt⟩) := List.get?_eq_get hlt
      cases fuel with
      | zero => omega
      | succ f =>
          simp only [Lib.ArrayReader.drainGo, Lib.ArrayReader.readS, if_pos hpos, hm, hget,
            Option.getD_some]
          rw [ih a (k - 1) (acc ++ [a.get ⟨m, hlt⟩]) f (by omega) (by omega) (by omega)]
          rw [show (k - 1 + 1).toNat = m by omega, hn]
          have htake : List.take (m + 1) a = List.take m a ++ [a.get ⟨m, hlt⟩] := by
            rw [List.take_succ]
            simp [List.getElem?_eq_getElem hlt, List.get_eq_getElem]
          rw [htake, List.reverse_append, List.reverse_singleton]
          simp only [List.singleton_append, List.append_assoc, List.cons_append,
            List.nil_append, List.get_eq_getElem, Bool.false_eq_true, if_false]

/-- C1: the claim states that `readToArray(toReader(seq))` yields the
elements of `seq` in their original order.  The code does not: the lib
`ArrayReader` walks its array from the last element to the first, so
draining it returns the input reversed — proved in general, and
evaluated at the failing input `["x", "y"]`, where the code returns
`["y", "x"]`. -/
theorem c1_readToArray_reverses_input :
    (∀ seq : List Chunk, Lib.readToArray seq = .ok seq.reverse) ∧
    Lib.readToArray [Chunk.str "x", Chunk.str "y"] =
      .ok [Chunk.str "y", Chunk.str "x"] := by
  have gen : ∀ seq : List Chunk, Lib.readToArray seq = .ok seq.reverse := by
    intro seq
    have h := Lib.drainGo_eq_reverse_take (((seq.length : Int) - 1 + 1).toNat) seq
      ((seq.length : Int) - 1) [] (seq.length + 1) rfl (by omega) (by omega)
    simp only [Lib.readToArray, Lib.ArrayReader.ofArray]
    rw [h, show (((seq.length : Int) - 1 + 1).toNat) = seq.length by omega,
      List.take_length]
    simp
  exact ⟨gen, by rw [gen]; rfl⟩

/-- C2: the claim states that the Flattening Evaluator drains the input
`[a, [b, c], d]` (nested sequence in the middle) to exactly
`[a, b, c, d]`.  The part_000 `FlatStreamReader` does; the
`src/lib/index.js` variant instead yields `[d, c, b, a]`, because its
backwards `ArrayReader` (see C1) serves both the base reader and the
nested-array frame. -/
theorem c2_nested_splice_order :
    V2.flatReadToArray 32 ctx0
        [Chunk.str "a", Chunk.arr [Chunk.str "b", Chunk.str "c"], Chunk.str "d"] =
      .ok [Chunk.str "a", Chunk.str "b", Chunk.str "c", Chunk.str "d"] ∧
    Lib.flatReadToArray 32 ctx0
        [Chunk.str "a", Chunk.arr [Chunk.str "b", Chunk.str "c"], Chunk.str "d"] =
      .ok [Chunk.str "d", Chunk.str "c", Chunk.str "b", Chunk.str "a"] :=
  ⟨rfl, rfl⟩

/-- C10: after `cancel()` on the lib `ArrayReader` (which sets
`_offset = -1`), every subsequent `read()` resolves done with an
undefined value and leaves the state unchanged, regardless of how many
elements remained unread. -/
theorem c10_cancel_is_permanent_exhaustion :
    ∀ s : Lib.ArrayReader,
      Lib.ArrayReader.readS (Lib.ArrayReader.cancelS s) =
        (⟨true, Chunk.nul⟩, Lib.ArrayReader.cancelS s) := by
  intro s
  simp [Lib.ArrayReader.readS, Lib.ArrayReader.cancelS]

/-- C3 counterexample: for the function chunk `F0 = () => (() => "X")`,
the fully re-classified result of `F0(ctx)` (per the spec's
classification list) is the string `"X"`, but the evaluator emits the
inner, unevaluated function chunk — which is not `"X"`.  So the emitted
value does not equal the fully re-classified result of `f(ctx)`:
re-classification is not fully recursive through function results. -/
theorem c3_fn_returning_fn_not_reclassified :
    specReclassify 9 ctx0 (Chunk.fn F0) = .ok [Chunk.str "X"] ∧
    Lib.flatReadToArray 9 ctx0 [Chunk.fn F0] = .ok [Chunk.fn G0] ∧
    (Chunk.fn G0).isStrEq "X" = false ∧ (Chunk.str "X").isStrEq "X" = true :=
  ⟨rfl, rfl, rfl, rfl⟩

/-- C3 amended: re-classification is recursive through promises (and
arrays/streams): a resolved promise's value re-enters `_handleReadRes`
from the top of the classification list — proved as an exact equation on
the lib `_handleReadRes` — so `f = () => Promise.resolve("X")` flattens
to `"X"`, and a promise resolving to a function is invoked; but a
function whose direct result is another function is emitted unevaluated
(functions are invoked at most once per classification pass). -/
theorem c3_amended_reclassification :
    (∀ (fuel : Nat) (st : Lib.FlatStreamReader) (v : Chunk),
      Lib.handleReadRes (fuel + 1) st ⟨false, Chunk.prom (.ok v)⟩ =
        Lib.handleReadRes fuel st ⟨false, v⟩) ∧
    Lib.flatReadToArray 12 ctx0 [Chunk.fn (fun _ => Chunk.prom (.ok (Chunk.str "X")))] =
      .ok [Chunk.str "X"] ∧
    Lib.flatReadToArray 12 ctx0 [Chunk.fn (fun _ => Chunk.prom (.ok (Chunk.fn G0)))] =
      .ok [Chunk.str "X"] ∧
    Lib.flatReadToArray 12 ctx0 [Chunk.fn F0] = .ok [Chunk.fn G0] :=
  ⟨fun _ _ _ => rfl, rfl, rfl, rfl⟩

lemma Lib.done_state_inv : ∀ fuel : Nat,
    (∀ (st : Lib.FlatStreamReader) (r : RRes) (st' : Lib.FlatStreamReader),
      Lib.flatRead fuel st = .ok (r, st') → r.done = true →
      st'.sub = none ∧ ¬(0 ≤ st'.reader.offset) ∧ r = ⟨true, Chunk.nul⟩) ∧
    (∀ (st : Lib.FlatStreamReader) (res r : RRes) (st' : Lib.FlatStreamReader),
      Lib.handleReadRes fuel st res = .ok (r, st') → r.done = true →
      (res.done = true ∧ r = res ∧ st' = st) ∨
      (st'.sub = none ∧ ¬(0 ≤ st'.reader.offset) ∧ r = ⟨true, Chunk.nul⟩)) := by
  intro fuel
  induction fuel with
  | zero =>
      constructor
      · intro st r st' hread _
        simp [Lib.flatRead] at hread
      · intro st res r st' hh _
        simp [Lib.handleReadRes] at hh
  | succ f ih =>
      constructor
      · intro st r st' hread hdone
        rw [Lib.flatRead] at hread
        cases hsub : st.sub with
        | some sr =>
            rw [hsub] at hread
            by_cases hd : (sr.readS).1.done
            · simp only [hd, if_true] at hread
              exact ih.1 _ _ _ hread hdone
            · simp only [hd, Bool.false_eq_true, if_false] at hread
              rcases ih.2 _ _ _ _ hread hdone with ⟨hres, _, _⟩ | hconc
              · exact absurd hres hd
              · exact hconc
        | none =>
            rw [hsub] at hread
            rcases ih.2 _ _ _ _ hread hdone with ⟨hres, hr, hst⟩ | hconc
            · by_cases hoff : 0 ≤ st.reader.offset
              · simp [Lib.ArrayReader.readS, hoff] at hres
              · subst hst
                refine ⟨by simpa using hsub, ?_, ?_⟩
                · simpa [Lib.ArrayReader.readS, hoff] using hoff
                · rw [hr]
                  simp [Lib.ArrayReader.readS, hoff]
            · exact hconc
      · intro st res r st' hh hdone
        rw [Lib.handleReadRes] at hh
        by_cases hd : res.done
        · simp only [hd, if_true, Except.ok.injEq, Prod.mk.injEq] at hh
          exact Or.inl ⟨hd, hh.1.symm, hh.2.symm⟩
        · right
          simp only [hd, Bool.false_eq_true, if_false] at hh
          cases hv : res.value with
          | str s =>
              rw [hv] at hh
              simp only [Except.ok.injEq, Prod.mk.injEq] at hh
              rw [← hh.1] at hdone
              simp at hdone
          | num n =>
              rw [hv] at hh
              simp only [Chunk.truthy] at hh
              rw [ite_self] at hh
              simp only [Except.ok.injEq, Prod.mk.injEq] at hh
              rw [← hh.1] at hdone
              simp at hdone
          | nul =>
              rw [hv] at hh
              simp only [Chunk.truthy, Bool.false_eq_true, if_false,
                Except.ok.injEq, Prod.mk.injEq] at hh
              rw [← hh.1] at hdone
              simp at hdone
          | arr a =>
              rw [hv] at hh
              simp only [Chunk.truthy, if_true] at hh
              exact ih.1 _ _ _ hh hdone
          | prom p =>
              rw [hv] at hh
              cases p with
              | ok v =>
                  simp only [Chunk.truthy, if_true] at hh
                  rcases ih.2 _ _ _ _ hh hdone with ⟨hres, _, _⟩ | hconc
                  · simp at hres
                  · exact hconc
              | error e => simp [Chunk.truthy] at hh
          | stream l =>
              rw [hv] at hh
              simp only [Chunk.truthy, if_true] at hh
              exact ih.1 _ _ _ hh hdone
          | fn g =>
              rw [hv] at hh
              simp only [Chunk.truthy] at hh
              cases hc : g st.ctx with
              | str s =>
                  rw [hc] at hh
                  simp only [Chunk.truthy] at hh
                  rw [ite_self] at hh
                  simp only [Except.ok.injEq, Prod.mk.injEq] at hh
                  rw [← hh.1] at hdone
                  simp at hdone
              | num n =>
                  rw [hc] at hh
                  simp only [Chunk.truthy] at hh
                  rw [ite_self] at hh
                  simp only [Except.ok.injEq, Prod.mk.injEq] at hh
                  rw [← hh.1] at hdone
                  simp at hdone
              | nul =>
                  rw [hc] at hh
                  simp only [Chunk.truthy, Bool.false_eq_true, if_false,
                    Except.ok.injEq, Prod.mk.injEq] at hh
                  rw [← hh.1] at hdone
                  simp at hdone
              | arr a =>
                  rw [hc] at hh
                  simp only [Chunk.truthy, if_true] at hh
                  exact ih.1 _ _ _ hh hdone
              | prom p =>
                  rw [hc] at hh
                  cases p with
                  | ok v =>
                      simp only [Chunk.truthy, if_true] at hh
                      rcases ih.2 _ _ _ _ hh hdone with ⟨hres, _, _⟩ | hconc
                      · simp at hres
                      · exact hconc
                  | error e => simp [Chunk.truthy] at hh
              | stream l =>
                  rw [hc] at hh
                  simp only [Chunk.truthy, if_true] at hh
                  exact ih.1 _ _ _ hh hdone
              | fn g2 =>
                  rw [hc] at hh
                  simp only [Chunk.truthy, if_true, Except.ok.injEq, Prod.mk.injEq] at hh
                  rw [← hh.1] at hdone
                  simp at hdone

lemma Lib.flatRead_done_state (st : Lib.FlatStreamReader) (g : Nat)
    (hsub : st.sub = none) (hoff : ¬ (0 ≤ st.reader.offset)) :
    Lib.flatRead (g + 2) st = .ok (⟨true, Chunk.nul⟩, st) := by
  rw [Lib.flatRead, hsub]
  simp only [Lib.ArrayReader.readS, if_neg hoff]
  rw [Lib.handleReadRes]
  simp
  rw [← hsub]

/-- C6: a read that comes back done leaves the Reader state unchanged,
and calling `read()` again on that state returns the same done result
again — idempotent exhaustion with no side effects — proved for the two
cited `ArrayReader` implementations and for the lib `FlatStreamReader`
built on them (whatever state a done result is observed in, every later
read returns the same done result and the same state). -/
theorem c6_done_is_idempotent :
    (∀ s : Lib.ArrayReader,
      (Lib.ArrayReader.readS s).1.done = true →
        (Lib.ArrayReader.readS s).2 = s ∧
        Lib.ArrayReader.readS ((Lib.ArrayReader.readS s).2) =
          (⟨true, Chunk.nul⟩, (Lib.ArrayReader.readS s).2)) ∧
    (∀ t : V2.ArrayReader,
      (V2.ArrayReader.readS t).1.done = true →
        (V2.ArrayReader.readS t).2 = t ∧
        V2.ArrayReader.readS ((V2.ArrayReader.readS t).2) =
          (⟨true, Chunk.nul⟩, (V2.ArrayReader.readS t).2)) ∧
    (∀ (fuel g : Nat) (u : Lib.FlatStreamReader) (r : RRes) (u' : Lib.FlatStreamReader),
      Lib.flatRead fuel u = .ok (r, u') → r.done = true →
        Lib.flatRead (g + 2) u' = .ok (r, u')) := by
  refine ⟨?_, ?_, ?_⟩
  · intro s hdone
    by_cases h : (0 : Int) ≤ s.offset
    · simp [Lib.ArrayReader.readS, h] at hdone
    · simp [Lib.ArrayReader.readS, h]
  · intro t hdone
    by_cases h : t.index < t.arr.length
    · simp [V2.ArrayReader.readS, h] at hdone
    · simp [V2.ArrayReader.readS, h]
  · intro fuel g u r u' hread hdone
    obtain ⟨hsub, hoff, hr⟩ := (Lib.done_state_inv fuel).1 u r u' hread hdone
    rw [hr]
    exact Lib.flatRead_done_state u' g hsub hoff

/-- C6 witness: instantiation at two concrete exhausted array readers
and an exhausted `FlatStreamReader` state. -/
theorem c6_done_is_idempotent_witness :
    Lib.ArrayReader.readS ((Lib.ArrayReader.readS ⟨[], -1⟩).2) =
      (⟨true, Chunk.nul⟩, (Lib.ArrayReader.readS ⟨[], -1⟩).2) ∧
    V2.ArrayReader.readS ((V2.ArrayReader.readS ⟨[], 0, 0⟩).2) =
      (⟨true, Chunk.nul⟩, (V2.ArrayReader.readS ⟨[], 0, 0⟩).2) ∧
    Lib.flatRead 3 ⟨⟨[], -1⟩, ctx0, none⟩ =
      .ok (⟨true, Chunk.nul⟩, ⟨⟨[], -1⟩, ctx0, none⟩) :=
  ⟨(c6_done_is_idempotent.1 ⟨[], -1⟩ (by rfl)).2,
   (c6_done_is_idempotent.2.1 ⟨[], 0, 0⟩ (by rfl)).2,
   c6_done_is_idempotent.2.2 5 1 ⟨⟨[], -1⟩, ctx0, none⟩ ⟨true, Chunk.nul⟩
     ⟨⟨[], -1⟩, ctx0, none⟩ (by rfl) rfl⟩

/-- C7 counterexample: the second `evalTransform` variant of
`src/index.js` has no falsy guard before probing `chunk.then`, so a
`null`/`undefined` chunk makes the pipeline fail with a `TypeError`
instead of being emitted unchanged — refuting the claim for that cited
variant. -/
theorem c7_null_chunk_throws_typeerror :
    ET2.evalT2Drain 10 ctx0 [Chunk.nul] =
      .error "TypeError: Cannot read property then of null" :=
  rfl

/-- C7 amended: in `FlatStreamReader._handleReadRes` (the guarded
variant) every falsy chunk value — also one produced by a function
invocation — is emitted unchanged as a non-done result with the state
untouched and no failure; in the unguarded `evalTransform` variant,
falsy primitives such as `0` and `""` are emitted unchanged, but
`null`/`undefined` chunks throw a `TypeError` when probed for `then`. -/
theorem c7_amended_falsy_emitted_unchanged :
    (∀ (fuel : Nat) (st : Lib.FlatStreamReader) (c : Chunk),
      c.truthy = false →
      Lib.handleReadRes (fuel + 1) st ⟨false, c⟩ = .ok (⟨false, c⟩, st)) ∧
    (∀ (fuel : Nat) (st : Lib.FlatStreamReader) (g : Ctx → Chunk),
      (g st.ctx).truthy = false →
      Lib.handleReadRes (fuel + 1) st ⟨false, Chunk.fn g⟩ = .ok (⟨false, g st.ctx⟩, st)) ∧
    (∀ (fuel : Nat) (c : Ctx) (rest : List Chunk),
      ET2.evalT2Read (fuel + 1) ⟨c, Chunk.num 0 :: rest, none⟩ =
        .ok (⟨false, Chunk.num 0⟩, ⟨c, rest, none⟩)) ∧
    (∀ (fuel : Nat) (c : Ctx) (rest : List Chunk),
      ET2.evalT2Read (fuel + 1) ⟨c, Chunk.str "" :: rest, none⟩ =
        .ok (⟨false, Chunk.str ""⟩, ⟨c, rest, none⟩)) := by
  refine ⟨?_, ?_, fun _ _ _ => rfl, fun _ _ _ => rfl⟩
  · intro fuel st c hc
    cases c <;> simp_all [Lib.handleReadRes, Chunk.truthy]
  · intro fuel st g hg
    simp [Lib.handleReadRes, hg]

/-- C7 amended witness: instantiation at the falsy chunks `0` (direct)
and a function returning `null`. -/
theorem c7_amended_falsy_witness :
    Lib.handleReadRes 5 ⟨⟨[], -1⟩, ctx0, none⟩ ⟨false, Chunk.num 0⟩ =
      .ok (⟨false, Chunk.num 0⟩, ⟨⟨[], -1⟩, ctx0, none⟩) ∧
    Lib.handleReadRes 5 ⟨⟨[], -1⟩, ctx0, none⟩ ⟨false, Chunk.fn (fun _ => Chunk.nul)⟩ =
      .ok (⟨false, Chunk.nul⟩, ⟨⟨[], -1⟩, ctx0, none⟩) :=
  ⟨c7_amended_falsy_emitted_unchanged.1 4 ⟨⟨[], -1⟩, ctx0, none⟩ (Chunk.num 0) rfl,
   (c7_amended_falsy_emitted_unchanged.2.1) 4 ⟨⟨[], -1⟩, ctx0, none⟩ (fun _ => Chunk.nul) rfl⟩

lemma V2.drainGo_step_str (c : Ctx) (a : List Chunk) (i : Nat) (off : Int)
    (acc : List Chunk) (g : Nat) (s0 : String)
    (hi : i < a.length) (hget : a[i]? = some (Chunk.str s0)) :
    V2.flatDrainGo (g + 2) ⟨.arrB ⟨a, i, off⟩, c, []⟩ acc =
      V2.flatDrainGo (g + 1) ⟨.arrB ⟨a, i + 1, off⟩, c, []⟩ (acc ++ [Chunk.str s0]) := by
  conv_lhs => rw [V2.flatDrainGo]
  simp only [V2.flatRead, V2.handleReadRes, V2.Base.readS, V2.ArrayReader.readS,
    if_pos hi, List.get?_eq_getElem?, hget, Option.getD_some, Bool.false_eq_true,
    if_false]

lemma V2.drainGo_rejects (e : String) (c : Ctx) (post : List Chunk) :
    ∀ (pre : List String) (a : List Chunk) (i : Nat) (off : Int)
      (acc : List Chunk) (fuel : Nat),
      a.drop i = pre.map Chunk.str ++ Chunk.prom (.error e) :: post →
      2 * pre.length + 2 ≤ fuel →
      V2.flatDrainGo fuel ⟨.arrB ⟨a, i, off⟩, c, []⟩ acc = .error e := by
  intro pre
  induction pre with
  | nil =>
      intro a i off acc fuel hdrop hf
      have hi : i < a.length := by
        rcases Nat.lt_or_ge i a.length with h | h
        · exact h
        · rw [List.drop_eq_nil_iff.mpr h] at hdrop
          cases hdrop
      have hget : a[i]? = some (Chunk.prom (.error e)) := by
        have h := List.head?_drop a i
        rw [hdrop] at h
        exact h.symm
      obtain ⟨g, rfl⟩ : ∃ g, fuel = g + 2 := ⟨fuel - 2, by omega⟩
      simp [V2.flatDrainGo, V2.flatRead, V2.handleReadRes, V2.Base.readS,
        V2.ArrayReader.readS, if_pos hi, List.get?_eq_getElem?, hget, Chunk.truthy]
  | cons s0 pre ih =>
      intro a i off acc fuel hdrop hf
      have hi : i < a.length := by
        rcases Nat.lt_or_ge i a.length with h | h
        · exact h
        · rw [List.drop_eq_nil_iff.mpr h] at hdrop
          cases hdrop
      have hget : a[i]? = some (Chunk.str s0) := by
        have h := List.head?_drop a i
        rw [hdrop] at h
        exact h.symm
      have hdrop' : a.drop (i + 1) =
          pre.map Chunk.str ++ Chunk.prom (.error e) :: post := by
        rw [← List.tail_drop, hdrop]
        rfl
      obtain ⟨g, rfl⟩ : ∃ g, fuel = g + 2 := ⟨fuel - 2, by omega⟩
      rw [V2.drainGo_step_str c a i off acc g s0 hi hget]
      exact ih a (i + 1) off (acc ++ [Chunk.str s0]) (g + 1) hdrop'
        (by simp at hf ⊢; omega)

/-- C4: a rejecting promise-like chunk makes the evaluator's `read()` for
that position fail with the same error (it is never emitted as a value),
and draining the pipeline rejects with that error — for any prefix of
plain string chunks before the rejecting position and any chunks at all
after it, which are never read (so no value is emitted at or after the
rejecting position).  Stated on the part_000 evaluator; the rejection
propagation code (`chunk.then` with no rejection handler) is line-for-
line the same in `src/lib/index.js`. -/
theorem c4_promise_rejection_fails_pipeline :
    ∀ (e : String) (c : Ctx),
      (∀ (fuel : Nat) (st : V2.FlatStreamReader),
        V2.handleReadRes (fuel + 1) st ⟨false, Chunk.prom (.error e)⟩ = .error e) ∧
      (∀ (pre : List String) (post : List Chunk) (fuel : Nat),
        2 * pre.length + 2 ≤ fuel →
        V2.flatReadToArray fuel c (pre.map Chunk.str ++ Chunk.prom (.error e) :: post) =
          .error e) := by
  intro e c
  refine ⟨fun fuel st => rfl, ?_⟩
  intro pre post fuel hf
  exact V2.drainGo_rejects e c post pre
    (pre.map Chunk.str ++ Chunk.prom (.error e) :: post) 0 0 [] fuel (by simp) hf

/-- C4 witness: a pipeline `["a", Promise.reject("boom"), 7]` drains to
the rejection `"boom"`, with the trailing chunk never read. -/
theorem c4_promise_rejection_witness :
    V2.flatReadToArray 10 ctx0
        [Chunk.str "a", Chunk.prom (.error "boom"), Chunk.num 7] = .error "boom" :=
  (c4_promise_rejection_fails_pipeline "boom" ctx0).2 ["a"] [Chunk.num 7] 10 (by norm_num)

/-- C5: in the `matchTransform` of `src/index.js` that keeps the
remainder in the transform (`curMatch.remainder`), whenever the pending
output queue is empty and the input yields a new chunk, the matcher is
invoked on the unconsumed remainder concatenated with the new chunk —
stated as an exact equation on `read()` — and consequently feeding
`"ab"` then `"c"` to a matcher that completes only on `"abc"` drains to
the single combined match `["abc"]`. -/
theorem c5_matcher_gets_remainder_concat :
    (∀ (mf : String → MT.MatchRes) (rem v : String) (rest : List String),
      MT.mtRead mf ⟨[], rem, v :: rest⟩ =
        MT.mtRead mf ⟨(mf (rem ++ v)).pending, (mf (rem ++ v)).remainder, rest⟩) ∧
    MT.mtDrainGo MT.abcMatchFn 10 ⟨[], "", ["ab", "c"]⟩ [] = some ["abc"] := by
  constructor
  · intro mf rem v rest
    rw [MT.mtRead]
  · simp [MT.mtDrainGo, MT.mtRead, MT.abcMatchFn]

/-- C8: `FlatStreamReader.cancel(reason)` (part_000, the variant with a
frame stack) invokes cancellation on every currently-stacked nested
frame — the cancellation outcomes of the frames are discarded values, so
all frames are attempted regardless of any frame's failure — and on the
base Reader, and returns exactly the base Reader's cancellation
outcome. -/
theorem c8_cancel_cascades_to_all_frames :
    ∀ (st : V2.FlatStreamReader) (reason : String),
      (∀ fr ∈ ((V2.flatCancel st reason).1).stack, fr.isCancelled = true) ∧
      ((V2.flatCancel st reason).1).reader.isCancelled = true ∧
      (V2.flatCancel st reason).2 = (st.reader.cancelS reason).2 := by
  intro st reason
  refine ⟨?_, ?_, rfl⟩
  · intro fr hfr
    simp only [V2.flatCancel, List.mem_map] at hfr
    obtain ⟨fr0, -, rfl⟩ := hfr
    cases fr0 with
    | arrR s => simp [V2.Frame.cancelS, V2.Frame.isCancelled, V2.ArrayReader.cancelS]
    | strmR rem fl => simp [V2.Frame.cancelS, V2.Frame.isCancelled]
  · cases h : st.reader with
    | arrB s =>
        simp [V2.flatCancel, h, V2.Base.cancelS, V2.Base.isCancelled,
          V2.ArrayReader.cancelS]
    | rdrB rem log ret =>
        simp [V2.flatCancel, h, V2.Base.cancelS, V2.Base.isCancelled]

/-- C8 witness: a Reader with two active nested frames (an array frame
and a stream frame) over a caller-supplied root: after `cancel`, both
frames and the root carry the cancellation, and the root's outcome is
returned. -/
theorem c8_cancel_cascades_witness :
    (((V2.flatCancel
        ⟨.rdrB [Chunk.str "a"] none "rootOutcome", ctx0,
          [.arrR ⟨[Chunk.str "b", Chunk.str "c"], 1, 0⟩, .strmR [Chunk.str "d"] false]⟩
        "stop").1).stack.all V2.Frame.isCancelled) = true ∧
    ((V2.flatCancel
        ⟨.rdrB [Chunk.str "a"] none "rootOutcome", ctx0,
          [.arrR ⟨[Chunk.str "b", Chunk.str "c"], 1, 0⟩, .strmR [Chunk.str "d"] false]⟩
        "stop").1).reader.isCancelled = true ∧
    (V2.flatCancel
        ⟨.rdrB [Chunk.str "a"] none "rootOutcome", ctx0,
          [.arrR ⟨[Chunk.str "b", Chunk.str "c"], 1, 0⟩, .strmR [Chunk.str "d"] false]⟩
        "stop").2 = "rootOutcome" := by
  have h := c8_cancel_cascades_to_all_frames
    ⟨.rdrB [Chunk.str "a"] none "rootOutcome", ctx0,
      [.arrR ⟨[Chunk.str "b", Chunk.str "c"], 1, 0⟩, .strmR [Chunk.str "d"] false]⟩
    "stop"
  refine ⟨?_, h.2.1, h.2.2.trans rfl⟩
  rw [List.all_eq_true]
  exact fun fr hfr => h.1 fr hfr

/-- C9: `transformStream(input, transforms)` throws synchronously at
composition time — modelled as an `Except.error` result of the composer
itself, produced before any read — for every input and every non-array
`transforms` argument; for an array `transforms` it returns a stream
(no composition-time throw), with all reads deferred. -/
theorem c9_transform_list_checked_synchronously :
    ∀ (input : Pipe.TInput) (tag : String)
      (ts : List (Pipe.PipeReader → Pipe.PipeReader)),
      Pipe.transformStream input (.nonArrayT tag) =
        .error "Transforms array expected." ∧
      ∃ out, Pipe.transformStream input (.arrT ts) = .ok out := by
  intro input tag ts
  exact ⟨rfl, ⟨_, rfl⟩⟩
